import Mathlib

/-!
Verification of the pi-acp protocol bridge.

This file gives a shallow embedding in Lean 4 of the parts of the
pi-acp source relevant to its specification:

* a model of dynamically-typed JSON values (`Json`) together with the
  JavaScript coercions the source relies on (`String(x)` coercion,
  truthiness, optional field access with nullish coalescing);
* the pure helpers `toolResultToText` (src/acp/translate/pi-tools.ts),
  `parseCommandArgs`, `substituteArgs`, `expandSlashCommand`
  (src/acp/slash-commands.ts), `guessFileNameFromMime` and
  `promptToPiMessage` (src/acp/translate/prompt.ts);
* the `PiRpcProcess` transport line/exit handlers
  (src/pi-rpc/process.ts) as a state machine over a pending-request
  set, with the observable effect of each incoming occurrence;
* the `PiAcpSession` turn state machine (src/acp/session.ts):
  `handlePiEvent`, the serialized notification queue (`lastEmit`
  promise chain), the `flushEmits` barriers installed by `turn_end`
  and by a failed prompt request, and the `prompt` / `cancel` entry
  points.  Asynchronous delivery is modelled by a small-step relation
  `SStep` in which handling an event, delivering the head of the
  notification queue, and running a flush continuation are separate,
  freely interleavable steps, mirroring the promise chain in the
  source.
-/

namespace PiAcp

/-! ## JSON value model and JavaScript coercions -/

/-- Dynamically-typed JSON value, the shape of parsed backend lines
(`JSON.parse`) and of `PiRpcEvent = Record<string, unknown>`. -/
inductive Json where
  | null
  | bool (b : Bool)
  | num (n : Int)
  | str (s : String)
  | arr (items : List Json)
  | obj (fields : List (String × Json))

/-- Property access `x[key]`: `none` models JavaScript `undefined`
(absent field or access on a non-object, as under optional chaining). -/
def getField : Json → String → Option Json
  | .obj fs, k => (fs.find? (fun f => f.1 == k)).map (fun f => f.2)
  | _, _ => none

mutual

/-- JavaScript `String(x)` coercion of a JSON value. -/
def jsToString : Json → String
  | .null => "null"
  | .bool true => "true"
  | .bool false => "false"
  | .num n => toString n
  | .str s => s
  | .arr xs => String.intercalate "," (jsToStringElems xs)
  | .obj _ => "[object Object]"

/-- Array-element conversion inside `Array.prototype.toString`:
`null` elements become the empty string. -/
def jsToStringElems : List Json → List String
  | [] => []
  | .null :: xs => "" :: jsToStringElems xs
  | x :: xs => jsToString x :: jsToStringElems xs

end

/-- JavaScript truthiness `Boolean(x)` of a JSON value. -/
def jsTruthy : Json → Bool
  | .null => false
  | .bool b => b
  | .num n => n != 0
  | .str s => s != ""
  | .arr _ => true
  | .obj _ => true

/-- The idiom `String(ev.key ?? '')` from the source: absent or `null`
fields coalesce to the empty string, anything else is stringified. -/
def strField (ev : Json) (key : String) : String :=
  match getField ev key with
  | none => ""
  | some .null => ""
  | some v => jsToString v

/-- The idiom `String(ev.key ?? dflt)` with a string default. -/
def strFieldD (ev : Json) (key dflt : String) : String :=
  match getField ev key with
  | none => dflt
  | some .null => dflt
  | some v => jsToString v

mutual

/-- Serializer standing for the `JSON.stringify(result, null, 2)`
debug dump in `toolResultToText` (layout whitespace is immaterial to
every property below; the `catch` branch of the source is unreachable
because `Json` values are finite trees). -/
def jsonStringify : Json → String
  | .null => "null"
  | .bool true => "true"
  | .bool false => "false"
  | .num n => toString n
  | .str s => "\"" ++ s ++ "\""
  | .arr xs => "[" ++ String.intercalate "," (jsonStringifyElems xs) ++ "]"
  | .obj fs => "\x7b" ++ String.intercalate "," (jsonStringifyFields fs) ++ "\x7d"

/-- Elementwise serialization for `jsonStringify` on arrays. -/
def jsonStringifyElems : List Json → List String
  | [] => []
  | x :: xs => jsonStringify x :: jsonStringifyElems xs

/-- Fieldwise serialization for `jsonStringify` on objects. -/
def jsonStringifyFields : List (String × Json) → List String
  | [] => []
  | f :: fs => ("\"" ++ f.1 ++ "\":" ++ jsonStringify f.2) :: jsonStringifyFields fs

end

/-! ## Slash commands (src/acp/slash-commands.ts) -/

/-- Structure `FileSlashCommand` from src/acp/slash-commands.ts. -/
structure FileSlashCommand where
  name : String
  description : String
  content : String
  source : String
deriving Repr, DecidableEq

/-- Worker loop of `parseCommandArgs` (src/acp/slash-commands.ts lines 136-164):
bash-style tokenization with single/double quote grouping.  The
recursion carries the `current` accumulator (in reverse) and the
open-quote state exactly as the source's loop does. -/
def parseCommandArgsGo (current : List Char) (inQuote : Option Char) :
    List Char → List String
  | [] => if current.isEmpty then [] else [String.mk current.reverse]
  | ch :: rest =>
    match inQuote with
    | some q =>
      if ch = q then parseCommandArgsGo current none rest
      else parseCommandArgsGo (ch :: current) (some q) rest
    | none =>
      if ch = Char.ofNat 34 ∨ ch = Char.ofNat 39 then
        parseCommandArgsGo current (some ch) rest
      else if ch = ' ' ∨ ch = Char.ofNat 9 then
        if current.isEmpty then parseCommandArgsGo [] none rest
        else String.mk current.reverse :: parseCommandArgsGo [] none rest
      else parseCommandArgsGo (ch :: current) none rest

/-- Function `parseCommandArgs(argsString)` from the source. -/
def parseCommandArgs (argsString : String) : List String :=
  parseCommandArgsGo [] none argsString.toList

/-- Expansion of JavaScript replacement-string patterns, as performed
by `String.prototype.replace` on the string replacement in
`result.replace(/\$@/g, args.join(' '))`: `$$` inserts `$`, `$&`
inserts the matched substring (always `$@` here), a backtick pattern
inserts the portion of the original string before the match, `$'` the
portion after it; `$<digits>` stays literal because the pattern
`/\$@/` has no capture groups. -/
def jsDollarPatterns (bef aft : List Char) : List Char → List Char
  | [] => []
  | '$' :: c :: rest =>
    if c = '$' then '$' :: jsDollarPatterns bef aft rest
    else if c = '&' then '$' :: '@' :: jsDollarPatterns bef aft rest
    else if c = Char.ofNat 96 then bef ++ jsDollarPatterns bef aft rest
    else if c = Char.ofNat 39 then aft ++ jsDollarPatterns bef aft rest
    else '$' :: c :: jsDollarPatterns bef aft rest
  | c :: rest => c :: jsDollarPatterns bef aft rest

/-- The global replace `result.replace(/\$@/g, args.join(' '))`:
scan left to right, replacing each occurrence of `$@` by the
replacement string with its `$`-patterns expanded against the match
context.  `pre` is the portion of the original string before the
current position. -/
def replaceDollarAtGo (repl : List Char) : List Char → List Char → List Char
  | pre, '$' :: '@' :: rest =>
    jsDollarPatterns pre rest repl ++ replaceDollarAtGo repl (pre ++ ['$', '@']) rest
  | pre, c :: rest => c :: replaceDollarAtGo repl (pre ++ [c]) rest
  | _, [] => []

/-- Decimal value of a nonempty digit run, i.e. `parseInt(num, 10)`
on a string of digits. -/
def digitsToNatGo (acc : Nat) : List Char → Nat
  | [] => acc
  | c :: rest => digitsToNatGo (acc * 10 + (c.toNat - 48)) rest

/-- The value substituted for a complete `$<digits>` match by the
callback in `result.replace(/\$(\d+)/g, (_m, num) => ...)`:
`args[parseInt(num, 10) - 1] ?? ''` (for `$0` the index is `-1`, so
the result is the empty string); the callback's return value is used
literally. -/
def dollarNumValue (args : List String) (digits : List Char) : List Char :=
  match digitsToNatGo 0 digits with
  | 0 => []
  | Nat.succ m => (args.getD m "").toList

/-- The global replace `result.replace(/\$(\d+)/g, ...)` as a
left-to-right scan.  The `Option` state is `none` outside a match
attempt and `some ds` after having read `$` followed by the digit run
`ds` so far (matching the regex engine's maximal-munch of `\d+`); a
`$` not followed by at least one digit is not a match and stays
literal. -/
def substDollarNum (args : List String) : Option (List Char) → List Char → List Char
  | none, [] => []
  | none, '$' :: rest => substDollarNum args (some []) rest
  | none, c :: rest => c :: substDollarNum args none rest
  | some ds, [] =>
    if ds.isEmpty then ['$'] else dollarNumValue args ds
  | some ds, c :: rest =>
    if c.isDigit then substDollarNum args (some (ds ++ [c])) rest
    else if ds.isEmpty then
      if c = '$' then '$' :: substDollarNum args (some []) rest
      else '$' :: c :: substDollarNum args none rest
    else
      if c = '$' then dollarNumValue args ds ++ substDollarNum args (some []) rest
      else dollarNumValue args ds ++ c :: substDollarNum args none rest

/-- Function `substituteArgs(content, args)` (src/acp/slash-commands.ts lines
169-179): first the `$@` pass, then the `$N` pass, in that order. -/
def substituteArgs (content : String) (args : List String) : String :=
  let joined := String.intercalate " " args
  let afterAt := replaceDollarAtGo joined.toList [] content.toList
  String.mk (substDollarNum args none afterAt)

/-- The leading command name of a slash input, as the source computes
it with `text.slice(1, spaceIndex)`: everything after the `/` up to
(excluding) the first space. -/
def leadingCommandName (text : String) : String :=
  match text.toList.findIdx? (fun ch => ch = ' ') with
  | none => String.mk (text.toList.drop 1)
  | some i => String.mk ((text.toList.take i).drop 1)

/-- The raw argument string of a slash input, `text.slice(spaceIndex
+ 1)`: everything after the first space, empty when there is none. -/
def slashArgsString (text : String) : String :=
  match text.toList.findIdx? (fun ch => ch = ' ') with
  | none => ""
  | some i => String.mk (text.toList.drop (i + 1))

/-- Function `expandSlashCommand(text, fileCommands)` (src/acp/slash-commands.ts
lines 185-197).  Character-based slicing: the split point is the first
space, so the induced substrings agree with the source's
code-unit-indexed `slice` calls; `text.startsWith('/')` is read off
the first character. -/
def expandSlashCommand (text : String) (fileCommands : List FileSlashCommand) : String :=
  if text.toList.head? ≠ some '/' then text
  else
    match fileCommands.find? (fun c => c.name == leadingCommandName text) with
    | none => text
    | some cmd => substituteArgs cmd.content (parseCommandArgs (slashArgsString text))

/-! ## Tool-result rendering (src/acp/translate/pi-tools.ts) -/

/-- One content part's contribution in `toolResultToText`: the source
maps each part to `c?.type === 'text' && typeof c.text === 'string' ?
c.text : ''` and then drops falsy (empty) strings with
`.filter(Boolean)`; `none` here is exactly a dropped entry. -/
def contentPartText (c : Json) : Option String :=
  match getField c "type", getField c "text" with
  | some (Json.str "text"), some (Json.str t) => if t = "" then none else some t
  | _, _ => none

/-- Function `toolResultToText(result)` (src/acp/translate/pi-tools.ts).  The
argument is `none` when the caller read an absent field (JavaScript
`undefined`); `if (!result) return ''` is the truthiness guard. -/
def toolResultToText (result : Option Json) : String :=
  match result with
  | none => ""
  | some r =>
    if jsTruthy r = false then ""
    else
      let texts :=
        match getField r "content" with
        | some (Json.arr cs) => cs.filterMap contentPartText
        | _ => []
      if texts ≠ [] then String.join texts
      else
        match (getField r "details").bind (fun d => getField d "diff") with
        | some (Json.str d) => if d.trim = "" then jsonStringify r else d
        | _ => jsonStringify r

/-! ## Prompt content translation (src/acp/translate/prompt.ts) -/

/-- Structure `PiAttachment` (src/acp/translate/prompt.ts); the optional
`extractedText`/`preview` fields are never set on this code path and
are omitted. -/
structure PiAttachment where
  id : String
  type : String
  fileName : String
  mimeType : String
  size : Nat
  content : String
deriving Repr, DecidableEq

/-- Type `ContentBlock`, restricted to the discriminants the source's
switch inspects.  The `resource` payload is dynamically accessed in
the source and is kept as a raw `Json` value; `unknown` covers every
other block kind (the `default` branch). -/
inductive ContentBlock where
  | text (t : String)
  | resourceLink (uri : String)
  | image (data : String) (mimeType : String) (uri : Option String)
  | resource (r : Json)
  | audio (data : String) (mimeType : String)
  | unknown

/-- Node's `Buffer.byteLength(str, 'base64')` as that runtime computes it: drop up to
two trailing `=` padding characters, then `(len * 3) >>> 2`. -/
def base64ByteLength (s : String) : Nat :=
  let cs := s.toList
  let b0 := cs.length
  let b1 := if 0 < b0 ∧ cs.getD (b0 - 1) ' ' = '=' then b0 - 1 else b0
  let b2 := if 1 < b1 ∧ cs.getD (b1 - 1) ' ' = '=' then b1 - 1 else b1
  b2 * 3 / 4

/-- Function `guessFileNameFromMime` (src/acp/translate/prompt.ts lines 14-18). -/
def guessFileNameFromMime (mimeType : String) : String :=
  let ext :=
    if mimeType = "image/png" then "png"
    else if mimeType = "image/jpeg" then "jpg"
    else if mimeType = "image/webp" then "webp"
    else "bin"
  "attachment." ++ ext

/-- Deterministic stand-in for `crypto.randomUUID()`: the `k`-th
identifier minted by a translation run.  No property below inspects
minted identifiers. -/
def freshUuid (k : Nat) : String :=
  "uuid-" ++ toString k

/-- Marker line appended for an embedded `resource` block
(src/acp/translate/prompt.ts lines 53-71), with the source's dynamic
field accesses made explicit. -/
def resourceMarker (r : Json) : String :=
  let uri :=
    match getField r "uri" with
    | some (Json.str u) => u
    | _ => "(unknown)"
  match getField r "text" with
  | some (Json.str t) =>
    let mime :=
      match getField r "mimeType" with
      | some (Json.str m) => m
      | _ => "text/plain"
    "\n[Embedded Context] " ++ uri ++ " (" ++ mime ++ ")\n" ++ t
  | _ =>
    match getField r "blob" with
    | some (Json.str blob) =>
      let mime :=
        match getField r "mimeType" with
        | some (Json.str m) => m
        | _ => "application/octet-stream"
      "\n[Embedded Context] " ++ uri ++ " (" ++ mime ++ ", " ++
        toString (base64ByteLength blob) ++ " bytes)"
    | _ => "\n[Embedded Context] " ++ uri

/-- Function `promptToPiMessage(blocks)` (src/acp/translate/prompt.ts lines
20-87), threading the mint counter `k` for ids of image blocks whose
`uri` is absent.  The source appends to an accumulator left to right;
here the head's contribution is prepended to the translation of the
tail, which yields the same message string and attachment order. -/
def promptToPiMessageGo : List ContentBlock → Nat → String × List PiAttachment
  | [], _ => ("", [])
  | ContentBlock.text t :: rest, k =>
    let (m, a) := promptToPiMessageGo rest k
    (t ++ m, a)
  | ContentBlock.resourceLink uri :: rest, k =>
    let (m, a) := promptToPiMessageGo rest k
    ("\n[Context] " ++ uri ++ m, a)
  | ContentBlock.image data mime uri :: rest, k =>
    let id :=
      match uri with
      | some u => u
      | none => freshUuid k
    let att : PiAttachment :=
      { id := id, type := "image", fileName := guessFileNameFromMime mime,
        mimeType := mime, size := base64ByteLength data, content := data }
    let (m, a) := promptToPiMessageGo rest (if uri.isNone then k + 1 else k)
    (m, att :: a)
  | ContentBlock.resource r :: rest, k =>
    let (m, a) := promptToPiMessageGo rest k
    (resourceMarker r ++ m, a)
  | ContentBlock.audio data mime :: rest, k =>
    let (m, a) := promptToPiMessageGo rest k
    ("\n[Audio] (" ++ mime ++ ", " ++ toString (base64ByteLength data) ++
      " bytes) not supported by pi-acp" ++ m, a)
  | ContentBlock.unknown :: rest, k => promptToPiMessageGo rest k

/-- Function `promptToPiMessage(blocks)`: translation with a fresh mint
counter. -/
def promptToPiMessage (blocks : List ContentBlock) : String × List PiAttachment :=
  promptToPiMessageGo blocks 0

/-! ## Backend RPC transport (src/pi-rpc/process.ts) -/

/-- Observable state of one `PiRpcProcess`: the ids of issued requests
whose response futures are still pending (insertion-ordered, unique),
the registered event listeners in registration order (represented by
tokens), and whether the `exit` event has fired. -/
structure RpcState where
  pending : List String
  handlers : List Nat
  exited : Bool
deriving Repr, DecidableEq

/-- Error kinds a pending request future can fail with. -/
inductive RpcError where
  | transportClosed
deriving Repr, DecidableEq

/-- The observable effect of one incoming occurrence on the
transport. -/
inductive RpcEffect where
  | noEffect
  | fulfill (id : String) (msg : Json)
  | dispatch (targets : List Nat) (msg : Json)
  | rejectAll (ids : List String) (e : RpcError)

/-- Classification `msg?.type === "response" && typeof msg.id ===
"string"` from the line handler: `some id` exactly when the parsed
line has the response shape. -/
def responseId (msg : Json) : Option String :=
  match getField msg "type", getField msg "id" with
  | some (Json.str "response"), some (Json.str s) => some s
  | _, _ => none

/-- The `rl.on("line", ...)` handler (src/pi-rpc/process.ts lines
146-165) applied to one successfully parsed line: a response-shaped
line with a pending id fulfils and retires that id; a response-shaped
line with an unknown id does nothing; every other parsed value is
dispatched unmodified to all registered listeners in registration
order. -/
def handleLine (st : RpcState) (msg : Json) : RpcState × RpcEffect :=
  match responseId msg with
  | some id =>
    if id ∈ st.pending then
      ({ st with pending := st.pending.erase id }, RpcEffect.fulfill id msg)
    else (st, RpcEffect.noEffect)
  | none => (st, RpcEffect.dispatch st.handlers msg)

/-- The `child.on("exit", ...)` handler (src/pi-rpc/process.ts lines
167-171): reject every pending future with the transport-closed error
and clear the pending map. -/
def handleExit (st : RpcState) : RpcState × RpcEffect :=
  ({ st with pending := [], exited := true },
   RpcEffect.rejectAll st.pending RpcError.transportClosed)

/-- An incoming occurrence delivered to the transport by the runtime:
a parsed stdout line, or the subprocess exit event. -/
inductive RpcIn where
  | line (msg : Json)
  | exit

/-- Dispatch of one occurrence. -/
def rpcStep (st : RpcState) : RpcIn → RpcState × RpcEffect
  | RpcIn.line m => handleLine st m
  | RpcIn.exit => handleExit st

/-- Sequential processing of a list of occurrences, collecting each
one's effect in order. -/
def rpcRun (st : RpcState) : List RpcIn → RpcState × List RpcEffect
  | [] => (st, [])
  | i :: is =>
    let p := rpcStep st i
    let q := rpcRun p.1 is
    (q.1, p.2 :: q.2)

/-- Effect of an occurrence processed by a transport whose pending set
is empty (the state after exit): responses correlate with nothing,
events still dispatch to the registered listeners. -/
def postExitEffect (hs : List Nat) : RpcIn → RpcEffect
  | RpcIn.line m =>
    match responseId m with
    | some _ => RpcEffect.noEffect
    | none => RpcEffect.dispatch hs m
  | RpcIn.exit => RpcEffect.rejectAll [] RpcError.transportClosed

example : parseCommandArgs "'a b' c" = ["a b", "c"] := by decide
example : parseCommandArgs "\"a b\" c" = ["a b", "c"] := by decide
example : substituteArgs "x=$1 y=$2 all=$@" ["one", "two"] = "x=one y=two all=one two" := by
  decide
example : substituteArgs "$@" ["$$"] = "$" := by decide
example : substituteArgs "x=$1 y=$3" ["one"] = "x=one y=" := by decide
example : expandSlashCommand "/unknown world" [] = "/unknown world" := by decide
example : expandSlashCommand "hello" [⟨"hello", "", "body", ""⟩] = "hello" := by decide
example : expandSlashCommand "/hi a b"
    [⟨"hi", "", "got $1 and $2, all $@", "(user)"⟩] = "got a and b, all a b" := by decide

/-! ## Session turn state machine (src/acp/session.ts)

The session's observable behaviour is modelled as a small-step system.
A `SessionState` carries the fields of `PiAcpSession` that the claims
concern, plus the part of the runtime the source manipulates through
promises: `queue` is the suffix of the `lastEmit` chain whose
deliveries have not yet completed (in enqueue order), `flushes` the
pending `flushEmits().finally(...)` continuations, each recorded with
the number of deliveries it still awaits (the length of the chain
when it was installed, as `flushEmits` awaits the `lastEmit` snapshot
taken at that moment), and `delivered` the observable trace: finished
notification deliveries and turn resolutions, in order. -/

/-- The `ToolKind` values produced by `toToolKind`. -/
inductive ToolKind where
  | read
  | edit
  | execute
  | other
deriving Repr, DecidableEq

/-- ACP tool-call status values emitted by the session. -/
inductive ToolStatus where
  | pending
  | inProgress
  | completed
  | failed
deriving Repr, DecidableEq

/-- The `session/update` notification payloads the session emits. -/
inductive SessionUpdate where
  | agentMessageChunk (text : String)
  | toolCall (toolCallId : String) (title : String) (kind : ToolKind)
      (status : ToolStatus) (rawInput : Option Json)
  | toolCallUpdate (toolCallId : String) (status : ToolStatus)
      (content : Option String) (rawOutput : Option Json)

/-- Type `StopReason` (src/acp/session.ts line 22). -/
inductive StopReason where
  | endTurn
  | cancelled
  | error
deriving Repr, DecidableEq

/-- Which failure path installed a flush continuation: the `turn_end`
event handler, or the `.catch` on the prompt request. -/
inductive FlushKind where
  | turnEnd
  | promptFailure
deriving Repr, DecidableEq

/-- The outcome computed inside a flush continuation when it runs:
`cancelRequested ? 'cancelled' : ...` with `'end_turn'` for the
`turn_end` handler and `'error'` for the prompt-failure handler. -/
def flushReason (cancelRequested : Bool) : FlushKind → StopReason
  | FlushKind.turnEnd => if cancelRequested then StopReason.cancelled else StopReason.endTurn
  | FlushKind.promptFailure => if cancelRequested then StopReason.cancelled else StopReason.error

/-- An entry of the observable trace: a notification delivery
finishing, or the open turn's promise resolving. -/
inductive OutputItem where
  | notif (u : SessionUpdate)
  | resolved (r : StopReason)

/-- State of one `PiAcpSession` plus its delivery runtime. -/
structure SessionState where
  cancelRequested : Bool
  pendingTurn : Bool
  currentToolCalls : List String
  queue : List SessionUpdate
  flushes : List (Nat × FlushKind)
  delivered : List OutputItem
  nonce : Nat

/-- Method `this.emit(update)`: append to the serialized delivery chain. -/
def SessionState.emit (s : SessionState) (u : SessionUpdate) : SessionState :=
  { s with queue := s.queue ++ [u] }

/-- Operation `Set.add` on the live tool-call set (insertion-ordered, no
duplicates). -/
def addToolCall (l : List String) (id : String) : List String :=
  if id ∈ l then l else l ++ [id]

/-- Function `toToolKind(toolName)` (src/acp/session.ts lines 285-297). -/
def toToolKind (toolName : String) : ToolKind :=
  if toolName = "read" then ToolKind.read
  else if toolName = "write" then ToolKind.edit
  else if toolName = "edit" then ToolKind.edit
  else if toolName = "bash" then ToolKind.execute
  else ToolKind.other

/-- The `message_update` branch's guard: `some d` exactly when
`ev.assistantMessageEvent?.type === 'text_delta'` and
`typeof ame.delta === 'string'`, yielding the delta. -/
def textDelta (ev : Json) : Option String :=
  match getField ev "assistantMessageEvent" with
  | some ame =>
    match getField ame "type", getField ame "delta" with
    | some (Json.str "text_delta"), some (Json.str d) => some d
    | _, _ => none
  | none => none

/-- Method `handlePiEvent(ev)` (src/acp/session.ts lines 185-282), one branch
per `String(ev.type ?? '')` value.  `crypto.randomUUID()` for a
missing `toolCallId` on `tool_execution_start` is modelled by the
deterministic mint `freshUuid s.nonce` (consuming the nonce); no
property below depends on the minted value. -/
def handlePiEvent (s : SessionState) (ev : Json) : SessionState :=
  let t := strField ev "type"
  if t = "message_update" then
    match textDelta ev with
    | some d => s.emit (SessionUpdate.agentMessageChunk d)
    | none => s
  else if t = "tool_execution_start" then
    let toolCallId :=
      match getField ev "toolCallId" with
      | none => freshUuid s.nonce
      | some Json.null => freshUuid s.nonce
      | some v => jsToString v
    let nonce2 :=
      match getField ev "toolCallId" with
      | none => s.nonce + 1
      | some Json.null => s.nonce + 1
      | some _ => s.nonce
    let toolName := strFieldD ev "toolName" "tool"
    let args := getField ev "args"
    let s1 := { s with currentToolCalls := addToolCall s.currentToolCalls toolCallId,
                       nonce := nonce2 }
    let s2 := s1.emit (SessionUpdate.toolCall toolCallId toolName (toToolKind toolName)
      ToolStatus.pending args)
    s2.emit (SessionUpdate.toolCallUpdate toolCallId ToolStatus.inProgress none none)
  else if t = "tool_execution_update" then
    let toolCallId := strField ev "toolCallId"
    if toolCallId = "" then s
    else
      let partResult := getField ev "partialResult"
      let text := toolResultToText partResult
      s.emit (SessionUpdate.toolCallUpdate toolCallId ToolStatus.inProgress
        (if text = "" then none else some text) partResult)
  else if t = "tool_execution_end" then
    let toolCallId := strField ev "toolCallId"
    if toolCallId = "" then s
    else
      let result := getField ev "result"
      let isError :=
        match getField ev "isError" with
        | none => false
        | some v => jsTruthy v
      let text := toolResultToText result
      let s1 := s.emit (SessionUpdate.toolCallUpdate toolCallId
        (if isError then ToolStatus.failed else ToolStatus.completed)
        (if text = "" then none else some text) result)
      { s1 with currentToolCalls := s1.currentToolCalls.erase toolCallId }
  else if t = "turn_end" then
    { s with flushes := s.flushes ++ [(s.queue.length, FlushKind.turnEnd)] }
  else s

/-- An occurrence observed by the session between suspension points:
a transport event (the `onEvent` callback), the rejection of the
prompt request's promise (its `.catch` handler), or a `cancel()`
call setting the cancellation flag. -/
inductive SessionInput where
  | ev (j : Json)
  | promptFailed
  | cancelReq

/-- Synchronous handling of one occurrence.  `promptFailed` installs
the same kind of flush barrier as `turn_end` but resolving to
`error`; `cancelReq` is the `this.cancelRequested = true` statement of
`cancel()`. -/
def handleInput (s : SessionState) : SessionInput → SessionState
  | SessionInput.ev j => handlePiEvent s j
  | SessionInput.promptFailed =>
    { s with flushes := s.flushes ++ [(s.queue.length, FlushKind.promptFailure)] }
  | SessionInput.cancelReq => { s with cancelRequested := true }

/-- The head delivery of the `lastEmit` chain finishing: the
notification becomes observable and every pending flush continuation
is one delivery closer to running (a continuation already at zero
merely keeps waiting for the scheduler, matching `Nat` truncation). -/
def deliverOne (s : SessionState) : SessionState :=
  match s.queue with
  | [] => s
  | u :: q =>
    { s with queue := q,
             delivered := s.delivered ++ [OutputItem.notif u],
             flushes := s.flushes.map (fun p => (p.1 - 1, p.2)) }

/-- A flush continuation whose awaited deliveries have all finished
runs: `this.pendingTurn?.resolve(reason); this.pendingTurn = null`.
With no open turn the optional chaining makes it a no-op, so a turn
resolves at most once. -/
def fireFlush (s : SessionState) (l1 l2 : List (Nat × FlushKind)) (k : FlushKind) :
    SessionState :=
  if s.pendingTurn then
    { s with flushes := l1 ++ l2,
             pendingTurn := false,
             delivered := s.delivered ++ [OutputItem.resolved (flushReason s.cancelRequested k)] }
  else { s with flushes := l1 ++ l2 }

/-- Small-step relation on (session state, inputs not yet observed):
handle the next occurrence, finish the head delivery, or run a ready
flush continuation.  Steps interleave freely, as the corresponding
microtasks do. -/
inductive SStep : SessionState × List SessionInput → SessionState × List SessionInput → Prop
  | handle (s : SessionState) (i : SessionInput) (rest : List SessionInput) :
      SStep (s, i :: rest) (handleInput s i, rest)
  | deliver (s : SessionState) (rest : List SessionInput) (h : s.queue ≠ []) :
      SStep (s, rest) (deliverOne s, rest)
  | fire (s : SessionState) (rest : List SessionInput) (l1 l2 : List (Nat × FlushKind))
      (k : FlushKind) (h : s.flushes = l1 ++ (0, k) :: l2) :
      SStep (s, rest) (fireFlush s l1 l2 k, rest)

/-- A configuration from which no step is possible: all inputs
handled, all deliveries finished, no runnable continuation. -/
def Terminal (cfg : SessionState × List SessionInput) : Prop :=
  ∀ cfg2, ¬ SStep cfg cfg2

/-- Session state at the start of an open turn: `prompt` has set
`cancelRequested := c` is the flag value under consideration,
`pendingTurn` is set, nothing queued or delivered yet this turn. -/
def openState (c : Bool) : SessionState :=
  { cancelRequested := c, pendingTurn := true, currentToolCalls := [],
    queue := [], flushes := [], delivered := [], nonce := 0 }

/-- Errors `prompt` reports synchronously. -/
inductive AcpError where
  | invalidRequest
deriving Repr, DecidableEq

/-- The synchronous prefix of `prompt(message)` (src/acp/session.ts
lines 130-143): reject with an invalid-request error while a turn is
open; otherwise clear the cancellation flag, expand the slash command,
open the turn, and hand the expanded message to the transport (the
returned string is the message of the issued backend request). -/
def promptCall (s : SessionState) (message : String)
    (fileCommands : List FileSlashCommand) : SessionState × Except AcpError String :=
  if s.pendingTurn then (s, Except.error AcpError.invalidRequest)
  else ({ s with cancelRequested := false, pendingTurn := true },
        Except.ok (expandSlashCommand message fileCommands))

/-! ### Behaviour of a turn consisting of text deltas and a terminal occurrence -/

/-- The event is a `message_update` carrying the text delta `d`. -/
def IsTextDelta (ev : Json) (d : String) : Prop :=
  strField ev "type" = "message_update" ∧ textDelta ev = some d

/-- The event is a `turn_end`. -/
def IsTurnEnd (ev : Json) : Prop :=
  strField ev "type" = "turn_end"

/-- The occurrence that terminates the turn: a `turn_end` event, or
the rejection of the prompt request. -/
def TerminalInput (i : SessionInput) (fk : FlushKind) : Prop :=
  (∃ te, i = SessionInput.ev te ∧ IsTurnEnd te ∧ fk = FlushKind.turnEnd) ∨
  (i = SessionInput.promptFailed ∧ fk = FlushKind.promptFailure)

/-- The trace entry for a delivered message chunk. -/
def chunkOut (d : String) : OutputItem :=
  OutputItem.notif (SessionUpdate.agentMessageChunk d)

theorem handlePiEvent_textDelta (s : SessionState) (ev : Json) (d : String)
    (h1 : strField ev "type" = "message_update") (h2 : textDelta ev = some d) :
    handlePiEvent s ev = s.emit (SessionUpdate.agentMessageChunk d) := by
  simp [handlePiEvent, h1, h2]

theorem handlePiEvent_turnEnd (s : SessionState) (ev : Json)
    (h1 : strField ev "type" = "turn_end") :
    handlePiEvent s ev =
      { s with flushes := s.flushes ++ [(s.queue.length, FlushKind.turnEnd)] } := by
  simp [handlePiEvent, h1]

/-- Invariant of every configuration reachable while a session with an
open turn processes a sequence of text-delta events followed by one
terminal occurrence.  Either (handling phase) a prefix of the deltas
has been turned into queued or delivered chunks and the rest of the
input is still to be observed; or (flush phase) the terminal
occurrence has installed its barrier, counting the chunks still
queued; or (done) the barrier has run and the turn is resolved. -/
def Inv (c : Bool) (fk : FlushKind) (last : SessionInput) (ds : List String)
    (cfg : SessionState × List SessionInput) : Prop :=
  cfg.1.cancelRequested = c ∧
  ((∃ dd dq du eu,
      ds = dd ++ dq ++ du ∧
      List.Forall₂ IsTextDelta eu du ∧
      cfg.2 = eu.map SessionInput.ev ++ [last] ∧
      cfg.1.pendingTurn = true ∧
      cfg.1.flushes = [] ∧
      cfg.1.delivered = dd.map chunkOut ∧
      cfg.1.queue = dq.map SessionUpdate.agentMessageChunk) ∨
   (∃ dd dq,
      ds = dd ++ dq ∧
      cfg.2 = [] ∧
      cfg.1.pendingTurn = true ∧
      cfg.1.flushes = [(dq.length, fk)] ∧
      cfg.1.delivered = dd.map chunkOut ∧
      cfg.1.queue = dq.map SessionUpdate.agentMessageChunk) ∨
   (cfg.2 = [] ∧ cfg.1.pendingTurn = false ∧ cfg.1.flushes = [] ∧ cfg.1.queue = [] ∧
      cfg.1.delivered = ds.map chunkOut ++ [OutputItem.resolved (flushReason c fk)]))

theorem inv_step (c : Bool) (fk : FlushKind) (last : SessionInput) (ds : List String)
    (hlast : TerminalInput last fk) (cfg cfg2 : SessionState × List SessionInput)
    (hstep : SStep cfg cfg2) (hinv : Inv c fk last ds cfg) : Inv c fk last ds cfg2 := by
  obtain ⟨hc, hbr⟩ := hinv
  cases hstep with
  | handle s i rest =>
    dsimp only at hc hbr
    rcases hbr with ⟨dd, dq, du, eu, hds, hfa, hrem, hpt, hfl, hdel, hq⟩ |
      ⟨dd, dq, hds, hrem, hpt, hfl, hdel, hq⟩ | ⟨hrem, hrest⟩
    · cases hfa with
      | nil =>
        simp only [List.map_nil, List.nil_append] at hrem
        obtain ⟨hi, hrest0⟩ := List.cons_eq_cons.mp hrem
        subst hi hrest0
        rcases hlast with ⟨te, hteq, hte, hkq⟩ | ⟨hpf, hkq⟩
        · subst hteq hkq
          have he : handleInput s (SessionInput.ev te) =
              { s with flushes := s.flushes ++ [(s.queue.length, FlushKind.turnEnd)] } := by
            simp [handleInput, handlePiEvent_turnEnd s te hte]
          refine ⟨by rw [he]; exact hc,
            Or.inr (Or.inl ⟨dd, dq, by simpa using hds, rfl, by rw [he]; exact hpt,
              ?_, by rw [he]; exact hdel, by rw [he]; exact hq⟩)⟩
          rw [he]
          simp [hfl, hq]
        · subst hpf hkq
          refine ⟨hc, Or.inr (Or.inl ⟨dd, dq, by simpa using hds, rfl, hpt,
            ?_, hdel, hq⟩)⟩
          simp [handleInput, hfl, hq]
      | @cons e d eu2 du2 hed htl =>
        simp only [List.map_cons, List.cons_append] at hrem
        obtain ⟨hi, hrest0⟩ := List.cons_eq_cons.mp hrem
        subst hi hrest0
        have he : handleInput s (SessionInput.ev e) =
            s.emit (SessionUpdate.agentMessageChunk d) := by
          simp [handleInput, handlePiEvent_textDelta s e d hed.1 hed.2]
        refine ⟨by rw [he]; exact hc,
          Or.inl ⟨dd, dq ++ [d], du2, eu2, ?_, htl, rfl,
            by rw [he]; exact hpt, by rw [he]; exact hfl,
            by rw [he]; exact hdel, ?_⟩⟩
        · rw [hds]; simp
        · rw [he]; simp [SessionState.emit, hq]
    · simp at hrem
    · simp at hrem
  | deliver s rest hne =>
    dsimp only at hc hbr
    rcases hbr with ⟨dd, dq, du, eu, hds, hfa, hrem, hpt, hfl, hdel, hq⟩ |
      ⟨dd, dq, hds, hrem, hpt, hfl, hdel, hq⟩ | ⟨hrem, hpt, hfl, hq, hdel⟩
    · cases dq with
      | nil => simp [hq] at hne
      | cons d dq2 =>
        have he : deliverOne s =
            { s with queue := dq2.map SessionUpdate.agentMessageChunk,
                     delivered := s.delivered ++ [chunkOut d],
                     flushes := s.flushes.map (fun p => (p.1 - 1, p.2)) } := by
          simp [deliverOne, hq, chunkOut]
        refine ⟨by rw [he]; exact hc,
          Or.inl ⟨dd ++ [d], dq2, du, eu, by rw [hds]; simp, hfa, hrem,
            by rw [he]; exact hpt, by rw [he]; simp [hfl],
            by rw [he]; simp [hdel], by rw [he]⟩⟩
    · cases dq with
      | nil => simp [hq] at hne
      | cons d dq2 =>
        have he : deliverOne s =
            { s with queue := dq2.map SessionUpdate.agentMessageChunk,
                     delivered := s.delivered ++ [chunkOut d],
                     flushes := s.flushes.map (fun p => (p.1 - 1, p.2)) } := by
          simp [deliverOne, hq, chunkOut]
        refine ⟨by rw [he]; exact hc,
          Or.inr (Or.inl ⟨dd ++ [d], dq2, by rw [hds]; simp, hrem,
            by rw [he]; exact hpt, by rw [he]; simp [hfl],
            by rw [he]; simp [hdel], by rw [he]⟩)⟩
    · simp [hq] at hne
  | fire s rest l1 l2 k hfl0 =>
    dsimp only at hc hbr
    rcases hbr with ⟨dd, dq, du, eu, hds, hfa, hrem, hpt, hfl, hdel, hq⟩ |
      ⟨dd, dq, hds, hrem, hpt, hfl, hdel, hq⟩ | ⟨hrem, hpt, hfl, hq, hdel⟩
    · rw [hfl] at hfl0
      cases l1 <;> simp at hfl0
    · rw [hfl] at hfl0
      cases l1 with
      | cons a l12 =>
        simp at hfl0
      | nil =>
        simp only [List.nil_append, List.cons.injEq, Prod.mk.injEq] at hfl0
        obtain ⟨⟨hlen, hkk⟩, hl2⟩ := hfl0
        have hdq : dq = [] := List.length_eq_zero.mp hlen
        subst hdq hl2
        subst hkk
        have he : fireFlush s [] [] fk =
            { s with flushes := [], pendingTurn := false,
                     delivered := s.delivered ++
                       [OutputItem.resolved (flushReason s.cancelRequested fk)] } := by
          simp [fireFlush, hpt]
        refine ⟨by rw [he]; exact hc, Or.inr (Or.inr ⟨hrem, by rw [he], by rw [he],
          by rw [he]; simpa using hq, ?_⟩)⟩
        rw [he]
        simp [hdel, hc, hds]
    · rw [hfl] at hfl0
      cases l1 <;> simp at hfl0

theorem inv_run (c : Bool) (fk : FlushKind) (last : SessionInput) (ds : List String)
    (hlast : TerminalInput last fk) (cfg cfg2 : SessionState × List SessionInput)
    (hrun : Relation.ReflTransGen SStep cfg cfg2) (hinv : Inv c fk last ds cfg) :
    Inv c fk last ds cfg2 := by
  induction hrun with
  | refl => exact hinv
  | tail h1 h2 ih => exact inv_step c fk last ds hlast _ _ h2 ih

theorem inv_terminal (c : Bool) (fk : FlushKind) (last : SessionInput) (ds : List String)
    (cfg : SessionState × List SessionInput)
    (hinv : Inv c fk last ds cfg) (hterm : Terminal cfg) :
    cfg.2 = [] ∧ cfg.1.pendingTurn = false ∧
    cfg.1.delivered = ds.map chunkOut ++ [OutputItem.resolved (flushReason c fk)] := by
  obtain ⟨s, rem⟩ := cfg
  obtain ⟨hc, hbr⟩ := hinv
  dsimp only at hc hbr ⊢
  rcases hbr with ⟨dd, dq, du, eu, hds, hfa, hrem, hpt, hfl, hdel, hq⟩ |
    ⟨dd, dq, hds, hrem, hpt, hfl, hdel, hq⟩ | ⟨hrem, hpt, hfl, hq, hdel⟩
  · exfalso
    rcases eu with _ | ⟨e, eu2⟩
    · simp only [List.map_nil, List.nil_append] at hrem
      subst hrem
      exact hterm _ (SStep.handle s last [])
    · simp only [List.map_cons, List.cons_append] at hrem
      subst hrem
      exact hterm _ (SStep.handle s (SessionInput.ev e) _)
  · exfalso
    cases dq with
    | nil =>
      exact hterm _ (SStep.fire s rem [] [] fk (by simp [hfl]))
    | cons d dq2 =>
      exact hterm _ (SStep.deliver s rem (by simp [hq]))
  · exact ⟨hrem, hpt, hdel⟩

/-- Complete behaviour of a turn fed a sequence of text-delta events
followed by one terminal occurrence: however the deliveries and
continuations interleave, every maximal execution delivers exactly the
chunk notifications, in order, and then resolves the turn once. -/
theorem run_spec (c : Bool) (fk : FlushKind) (last : SessionInput) (evs : List Json)
    (ds : List String) (hlast : TerminalInput last fk)
    (hfa : List.Forall₂ IsTextDelta evs ds) (cfg : SessionState × List SessionInput)
    (hrun : Relation.ReflTransGen SStep (openState c, evs.map SessionInput.ev ++ [last]) cfg)
    (hterm : Terminal cfg) :
    cfg.2 = [] ∧ cfg.1.pendingTurn = false ∧
    cfg.1.delivered = ds.map chunkOut ++ [OutputItem.resolved (flushReason c fk)] := by
  have h0 : Inv c fk last ds (openState c, evs.map SessionInput.ev ++ [last]) :=
    ⟨rfl, Or.inl ⟨[], [], ds, evs, by simp, hfa, rfl, rfl, rfl, rfl, rfl⟩⟩
  exact inv_terminal c fk last ds cfg (inv_run c fk last ds hlast _ _ hrun h0) hterm

/-- A configuration with no inputs left, an empty queue and no pending
flush continuation admits no step. -/
theorem terminal_of_empty (s : SessionState) (hq : s.queue = []) (hf : s.flushes = []) :
    Terminal (s, ([] : List SessionInput)) := by
  intro cfg2 h
  cases h with
  | deliver s rest hne => exact hne hq
  | fire s rest l1 l2 k hfl =>
    rw [hf] at hfl
    cases l1 <;> simp at hfl

/-- A `message_update` event carrying the text delta `d`, used as a
concrete input below. -/
def mkDeltaEvent (d : String) : Json :=
  Json.obj [("type", Json.str "message_update"),
            ("assistantMessageEvent",
              Json.obj [("type", Json.str "text_delta"), ("delta", Json.str d)])]

/-- A concrete `turn_end` event. -/
def turnEndEvent : Json :=
  Json.obj [("type", Json.str "turn_end")]

theorem isTextDelta_mkDeltaEvent (d : String) : IsTextDelta (mkDeltaEvent d) d :=
  ⟨rfl, rfl⟩

/-- Claim C1: for every sequence of `message_update` text-delta events
followed by a `turn_end` observed by a session with an open turn, a
message-chunk notification carrying each delta verbatim is enqueued in
the order the deltas were observed, every notification enqueued up to
the `turn_end` finishes delivering before the turn resolves, and the
turn then resolves exactly once — to `cancelled` if the cancellation
flag is set and to `end_turn` otherwise — clearing the open turn.  The
trace of every maximal execution is exactly the chunk deliveries in
delta order followed by the single resolution. -/
theorem turn_message_chunks_ordered (c : Bool) (evs : List Json) (ds : List String)
    (hfa : List.Forall₂ IsTextDelta evs ds) (te : Json) (hte : IsTurnEnd te)
    (cfg : SessionState × List SessionInput)
    (hrun : Relation.ReflTransGen SStep
      (openState c, evs.map SessionInput.ev ++ [SessionInput.ev te]) cfg)
    (hterm : Terminal cfg) :
    cfg.1.delivered = ds.map chunkOut ++
      [OutputItem.resolved (if c then StopReason.cancelled else StopReason.endTurn)] ∧
    cfg.1.pendingTurn = false ∧ cfg.2 = [] := by
  have h := run_spec c FlushKind.turnEnd (SessionInput.ev te) evs ds
    (Or.inl ⟨te, rfl, hte, rfl⟩) hfa cfg hrun hterm
  exact ⟨h.2.2, h.2.1, h.1⟩

/-- Final state of the concrete witness run for claim C1. -/
def c1FinalState : SessionState :=
  { cancelRequested := false, pendingTurn := false, currentToolCalls := [],
    queue := [], flushes := [],
    delivered := [chunkOut "Hel", chunkOut "lo",
      OutputItem.resolved StopReason.endTurn],
    nonce := 0 }

/-- Witness for C1: a concrete maximal run with deltas `"Hel"`, `"lo"`
and cancellation flag clear ends with exactly those two chunks
delivered in order and one `end_turn` resolution. -/
theorem turn_message_chunks_ordered_witness :
    c1FinalState.delivered = ["Hel", "lo"].map chunkOut ++
      [OutputItem.resolved (if false then StopReason.cancelled else StopReason.endTurn)] ∧
    c1FinalState.pendingTurn = false ∧ ([] : List SessionInput) = [] := by
  have hrun : Relation.ReflTransGen SStep
      (openState false,
        [mkDeltaEvent "Hel", mkDeltaEvent "lo"].map SessionInput.ev ++
          [SessionInput.ev turnEndEvent])
      (c1FinalState, []) := by
    refine Relation.ReflTransGen.head (SStep.handle _ _ _) ?_
    refine Relation.ReflTransGen.head (SStep.handle _ _ _) ?_
    refine Relation.ReflTransGen.head (SStep.handle _ _ _) ?_
    refine Relation.ReflTransGen.head (SStep.deliver _ _ (List.cons_ne_nil _ _)) ?_
    refine Relation.ReflTransGen.head (SStep.deliver _ _ (List.cons_ne_nil _ _)) ?_
    exact Relation.ReflTransGen.head (SStep.fire _ _ [] [] FlushKind.turnEnd rfl)
      Relation.ReflTransGen.refl
  exact turn_message_chunks_ordered false [mkDeltaEvent "Hel", mkDeltaEvent "lo"]
    ["Hel", "lo"]
    (List.Forall₂.cons (isTextDelta_mkDeltaEvent "Hel")
      (List.Forall₂.cons (isTextDelta_mkDeltaEvent "lo") List.Forall₂.nil))
    turnEndEvent rfl (c1FinalState, []) hrun
    (terminal_of_empty c1FinalState rfl rfl)

/-- Claim C3: if the backend prompt request itself fails before any
`turn_end` arrives, the session first waits for all already-enqueued
notifications to finish delivering, then resolves the open turn — it
is never rejected, as the stored `reject` continuation is never
invoked and the model's flush continuation only resolves — to
`cancelled` if cancellation had been requested and to `error`
otherwise, so the caller of `prompt` receives a well-formed
completion.  The trace of every maximal execution is the enqueued
chunk deliveries in order followed by the single resolution. -/
theorem prompt_failure_resolves_turn (c : Bool) (evs : List Json) (ds : List String)
    (hfa : List.Forall₂ IsTextDelta evs ds)
    (cfg : SessionState × List SessionInput)
    (hrun : Relation.ReflTransGen SStep
      (openState c, evs.map SessionInput.ev ++ [SessionInput.promptFailed]) cfg)
    (hterm : Terminal cfg) :
    cfg.1.delivered = ds.map chunkOut ++
      [OutputItem.resolved (if c then StopReason.cancelled else StopReason.error)] ∧
    cfg.1.pendingTurn = false ∧ cfg.2 = [] := by
  have h := run_spec c FlushKind.promptFailure SessionInput.promptFailed evs ds
    (Or.inr ⟨rfl, rfl⟩) hfa cfg hrun hterm
  exact ⟨h.2.2, h.2.1, h.1⟩

/-- Final state of the concrete witness run for claim C3. -/
def c3FinalState : SessionState :=
  { cancelRequested := true, pendingTurn := false, currentToolCalls := [],
    queue := [], flushes := [],
    delivered := [chunkOut "partial", OutputItem.resolved StopReason.cancelled],
    nonce := 0 }

/-- Witness for C3: a concrete maximal run with one delta followed by
a failed prompt request, with cancellation previously requested,
delivers the chunk and then resolves the turn to `cancelled`. -/
theorem prompt_failure_resolves_turn_witness :
    c3FinalState.delivered = ["partial"].map chunkOut ++
      [OutputItem.resolved (if true then StopReason.cancelled else StopReason.error)] ∧
    c3FinalState.pendingTurn = false ∧ ([] : List SessionInput) = [] := by
  have hrun : Relation.ReflTransGen SStep
      (openState true,
        [mkDeltaEvent "partial"].map SessionInput.ev ++ [SessionInput.promptFailed])
      (c3FinalState, []) := by
    refine Relation.ReflTransGen.head (SStep.handle _ _ _) ?_
    refine Relation.ReflTransGen.head (SStep.handle _ _ _) ?_
    refine Relation.ReflTransGen.head (SStep.deliver _ _ (List.cons_ne_nil _ _)) ?_
    exact Relation.ReflTransGen.head (SStep.fire _ _ [] [] FlushKind.promptFailure rfl)
      Relation.ReflTransGen.refl
  exact prompt_failure_resolves_turn true [mkDeltaEvent "partial"] ["partial"]
    (List.Forall₂.cons (isTextDelta_mkDeltaEvent "partial") List.Forall₂.nil)
    (c3FinalState, []) hrun (terminal_of_empty c3FinalState rfl rfl)

/-! ### Cancellation flag bookkeeping -/

theorem handlePiEvent_cancelRequested (s : SessionState) (ev : Json) :
    (handlePiEvent s ev).cancelRequested = s.cancelRequested := by
  unfold handlePiEvent SessionState.emit
  dsimp only
  repeat' split
  all_goals rfl

theorem handlePiEvent_delivered (s : SessionState) (ev : Json) :
    (handlePiEvent s ev).delivered = s.delivered := by
  unfold handlePiEvent SessionState.emit
  dsimp only
  repeat' split
  all_goals rfl

theorem handleInput_cancelRequested (s : SessionState) (i : SessionInput)
    (h : i ≠ SessionInput.cancelReq) :
    (handleInput s i).cancelRequested = s.cancelRequested := by
  cases i with
  | ev j => exact handlePiEvent_cancelRequested s j
  | promptFailed => rfl
  | cancelReq => exact absurd rfl h

theorem handleInput_delivered (s : SessionState) (i : SessionInput) :
    (handleInput s i).delivered = s.delivered := by
  cases i with
  | ev j => exact handlePiEvent_delivered s j
  | promptFailed => rfl
  | cancelReq => rfl

theorem deliverOne_cancelRequested (s : SessionState) :
    (deliverOne s).cancelRequested = s.cancelRequested := by
  unfold deliverOne
  split <;> rfl

theorem fireFlush_cancelRequested (s : SessionState) (l1 l2 : List (Nat × FlushKind))
    (k : FlushKind) : (fireFlush s l1 l2 k).cancelRequested = s.cancelRequested := by
  unfold fireFlush
  split <;> rfl

/-- In a run that observes no `cancel()` call, starting with the
cancellation flag clear, the flag stays clear and no `cancelled`
resolution is ever appended to the trace. -/
theorem no_cancel_run (s0 : SessionState) (inputs : List SessionInput)
    (cfg : SessionState × List SessionInput)
    (h0 : s0.cancelRequested = false)
    (hni : SessionInput.cancelReq ∉ inputs)
    (hrun : Relation.ReflTransGen SStep (s0, inputs) cfg) :
    cfg.1.cancelRequested = false ∧ SessionInput.cancelReq ∉ cfg.2 ∧
    ∃ tail, cfg.1.delivered = s0.delivered ++ tail ∧
      OutputItem.resolved StopReason.cancelled ∉ tail := by
  induction hrun with
  | refl => exact ⟨h0, hni, [], by simp, by simp⟩
  | tail h1 h2 ih =>
    obtain ⟨ihc, ihni, tail, ihdel, ihnc⟩ := ih
    cases h2 with
    | handle s i rest =>
      dsimp only at ihc ihni ihdel ⊢
      have hi : i ≠ SessionInput.cancelReq := fun h => ihni (h ▸ List.mem_cons_self i rest)
      refine ⟨by rw [handleInput_cancelRequested s i hi]; exact ihc,
        fun h => ihni (List.mem_cons_of_mem i h),
        tail, by rw [handleInput_delivered s i]; exact ihdel, ihnc⟩
    | deliver s rest hne =>
      dsimp only at ihc ihni ihdel ⊢
      refine ⟨by rw [deliverOne_cancelRequested s]; exact ihc, ihni, ?_⟩
      rcases hq : s.queue with _ | ⟨u, q2⟩
      · exact absurd hq hne
      · refine ⟨tail ++ [OutputItem.notif u], by simp [deliverOne, hq, ihdel], ?_⟩
        intro hmem
        rcases List.mem_append.mp hmem with h | h
        · exact ihnc h
        · simp at h
    | fire s rest l1 l2 k hfl =>
      dsimp only at ihc ihni ihdel ⊢
      refine ⟨by rw [fireFlush_cancelRequested s l1 l2 k]; exact ihc, ihni, ?_⟩
      unfold fireFlush
      split
      · refine ⟨tail ++ [OutputItem.resolved (flushReason s.cancelRequested k)],
          by simp [ihdel], ?_⟩
        intro hmem
        rcases List.mem_append.mp hmem with h | h
        · exact ihnc h
        · simp [ihc] at h
          cases k <;> simp [flushReason] at h
      · exact ⟨tail, ihdel, ihnc⟩

/-- Claim C10: every successful call to `prompt` resets the session's
cancellation flag to false before issuing the backend request, so a
`cancel()` issued after a previous turn resolved (and before this
prompt) never causes the new turn to be classified as `cancelled`:
in any subsequent run that observes no further `cancel()`, the flag
stays false and no `cancelled` resolution is ever produced. -/
theorem prompt_resets_cancel_flag (s : SessionState) (message : String)
    (fileCommands : List FileSlashCommand) (hidle : s.pendingTurn = false)
    (inputs : List SessionInput) (hni : SessionInput.cancelReq ∉ inputs)
    (cfg : SessionState × List SessionInput)
    (hrun : Relation.ReflTransGen SStep
      ((promptCall s message fileCommands).1, inputs) cfg) :
    (promptCall s message fileCommands).1.cancelRequested = false ∧
    (promptCall s message fileCommands).2 =
      Except.ok (expandSlashCommand message fileCommands) ∧
    cfg.1.cancelRequested = false ∧
    ∃ tail, cfg.1.delivered = (promptCall s message fileCommands).1.delivered ++ tail ∧
      OutputItem.resolved StopReason.cancelled ∉ tail := by
  have hp : promptCall s message fileCommands =
      ({ s with cancelRequested := false, pendingTurn := true },
       Except.ok (expandSlashCommand message fileCommands)) := by
    simp [promptCall, hidle]
  have h := no_cancel_run (promptCall s message fileCommands).1 inputs cfg
    (by rw [hp]) hni hrun
  exact ⟨by rw [hp], by rw [hp], h.1, h.2.2⟩

/-- Idle session with a stale cancellation flag: `cancel()` was called
after the previous turn resolved. -/
def c10StartState : SessionState :=
  { cancelRequested := true, pendingTurn := false, currentToolCalls := [],
    queue := [], flushes := [], delivered := [], nonce := 0 }

/-- Final state of the concrete witness run for claim C10. -/
def c10FinalState : SessionState :=
  { cancelRequested := false, pendingTurn := false, currentToolCalls := [],
    queue := [], flushes := [],
    delivered := [OutputItem.resolved StopReason.endTurn], nonce := 0 }

/-- Witness for C10: prompting on a session with a stale cancellation
flag and then completing a turn (a `turn_end` and its flush) yields an
`end_turn` — not `cancelled` — resolution. -/
theorem prompt_resets_cancel_flag_witness :
    (promptCall c10StartState "hi" []).1.cancelRequested = false ∧
    (promptCall c10StartState "hi" []).2 = Except.ok (expandSlashCommand "hi" []) ∧
    c10FinalState.cancelRequested = false ∧
    ∃ tail, c10FinalState.delivered = (promptCall c10StartState "hi" []).1.delivered ++ tail ∧
      OutputItem.resolved StopReason.cancelled ∉ tail := by
  have hrun : Relation.ReflTransGen SStep
      ((promptCall c10StartState "hi" []).1, [SessionInput.ev turnEndEvent])
      (c10FinalState, []) := by
    refine Relation.ReflTransGen.head (SStep.handle _ _ _) ?_
    exact Relation.ReflTransGen.head (SStep.fire _ _ [] [] FlushKind.turnEnd rfl)
      Relation.ReflTransGen.refl
  exact prompt_resets_cancel_flag c10StartState "hi" [] rfl
    [SessionInput.ev turnEndEvent] (by simp) (c10FinalState, []) hrun

/-- Claim C4: for every session with an open turn, calling `prompt`
again fails immediately and synchronously with an invalid-request
error, the new prompt is never issued to the backend, and the session
state is unchanged by the failed call. -/
theorem prompt_while_open_fails (s : SessionState) (message : String)
    (fileCommands : List FileSlashCommand) (h : s.pendingTurn = true) :
    promptCall s message fileCommands = (s, Except.error AcpError.invalidRequest) := by
  simp [promptCall, h]

/-- Witness for C4: a second prompt on a freshly opened turn fails
with the invalid-request error and leaves the state untouched. -/
theorem prompt_while_open_fails_witness :
    promptCall (openState false) "second prompt" [] =
      (openState false, Except.error AcpError.invalidRequest) :=
  prompt_while_open_fails (openState false) "second prompt" [] rfl

/-! ### Tool-call id handling on update / end events -/

theorem handlePiEvent_toolMissingId (s : SessionState) (ev : Json)
    (h : strField ev "type" = "tool_execution_update" ∨
         strField ev "type" = "tool_execution_end")
    (hid : strField ev "toolCallId" = "") :
    handlePiEvent s ev = s := by
  rcases h with h | h <;> simp [handlePiEvent, h, hid]

theorem handlePiEvent_toolUpdate (s : SessionState) (ev : Json)
    (h : strField ev "type" = "tool_execution_update")
    (hid : strField ev "toolCallId" ≠ "") :
    handlePiEvent s ev =
      s.emit (SessionUpdate.toolCallUpdate (strField ev "toolCallId")
        ToolStatus.inProgress
        (if toolResultToText (getField ev "partialResult") = "" then none
         else some (toolResultToText (getField ev "partialResult")))
        (getField ev "partialResult")) := by
  simp [handlePiEvent, h, hid]

theorem handlePiEvent_toolEnd (s : SessionState) (ev : Json)
    (h : strField ev "type" = "tool_execution_end")
    (hid : strField ev "toolCallId" ≠ "") :
    handlePiEvent s ev =
      { s.emit (SessionUpdate.toolCallUpdate (strField ev "toolCallId")
          (if (match getField ev "isError" with
               | none => false
               | some v => jsTruthy v) then ToolStatus.failed else ToolStatus.completed)
          (if toolResultToText (getField ev "result") = "" then none
           else some (toolResultToText (getField ev "result")))
          (getField ev "result")) with
        currentToolCalls := s.currentToolCalls.erase (strField ev "toolCallId") } := by
  simp [handlePiEvent, h, hid, SessionState.emit]

/-- Counterexample to claim C2 as stated: a `tool_execution_update`
whose id `"t1"` is not in the session's live tool-call set is not
ignored — handling it enqueues a `tool_call_update` notification. -/
theorem unknown_tool_id_not_ignored :
    ("t1" ∉ (openState false).currentToolCalls) ∧
    (openState false).queue = [] ∧
    (handlePiEvent (openState false)
        (Json.obj [("type", Json.str "tool_execution_update"),
                   ("toolCallId", Json.str "t1")])).queue =
      [SessionUpdate.toolCallUpdate "t1" ToolStatus.inProgress none none] := by
  exact ⟨by simp [openState], rfl, rfl⟩

/-- Claim C2 (amended): a `tool_execution_update` or
`tool_execution_end` event whose tool-call id is missing (absent,
`null`, or stringifying to the empty string) is ignored — no
notification, no state change, no throw.  An event whose id is
present is *not* filtered against the live tool-call set: update and
end still enqueue exactly one `tool_call_update` notification; for an
unknown id the live set (and all other state) is unchanged, the
`end` handler's removal being a no-op.  Handling never throws (it is
a total function). -/
theorem tool_event_id_handling (s : SessionState) (ev : Json) :
    ((strField ev "type" = "tool_execution_update" ∨
      strField ev "type" = "tool_execution_end") →
      strField ev "toolCallId" = "" → handlePiEvent s ev = s) ∧
    (strField ev "type" = "tool_execution_update" →
      strField ev "toolCallId" ≠ "" →
      ∃ u, handlePiEvent s ev = s.emit u) ∧
    (strField ev "type" = "tool_execution_end" →
      strField ev "toolCallId" ≠ "" →
      strField ev "toolCallId" ∉ s.currentToolCalls →
      ∃ u, handlePiEvent s ev = { s.emit u with currentToolCalls := s.currentToolCalls }) := by
  refine ⟨handlePiEvent_toolMissingId s ev, ?_, ?_⟩
  · intro h hid
    exact ⟨_, handlePiEvent_toolUpdate s ev h hid⟩
  · intro h hid hmem
    exact ⟨SessionUpdate.toolCallUpdate (strField ev "toolCallId")
        (if (match getField ev "isError" with
             | none => false
             | some v => jsTruthy v) then ToolStatus.failed else ToolStatus.completed)
        (if toolResultToText (getField ev "result") = "" then none
         else some (toolResultToText (getField ev "result")))
        (getField ev "result"),
      by rw [handlePiEvent_toolEnd s ev h hid, List.erase_of_not_mem hmem]⟩

/-- Witness for the amended C2 at concrete inputs: an update with a
missing id is ignored; an update and an end with the unknown id
`"t9"` each enqueue one notification and leave the live set empty. -/
theorem tool_event_id_handling_witness :
    handlePiEvent (openState false)
        (Json.obj [("type", Json.str "tool_execution_update")]) = openState false ∧
    (∃ u, handlePiEvent (openState false)
        (Json.obj [("type", Json.str "tool_execution_update"),
                   ("toolCallId", Json.str "t9")]) = (openState false).emit u) ∧
    (∃ u, handlePiEvent (openState false)
        (Json.obj [("type", Json.str "tool_execution_end"),
                   ("toolCallId", Json.str "t9")]) =
      { (openState false).emit u with
          currentToolCalls := (openState false).currentToolCalls }) := by
  refine ⟨?_, ?_, ?_⟩
  · exact (tool_event_id_handling (openState false)
      (Json.obj [("type", Json.str "tool_execution_update")])).1 (Or.inl rfl) rfl
  · exact (tool_event_id_handling (openState false)
      (Json.obj [("type", Json.str "tool_execution_update"),
                 ("toolCallId", Json.str "t9")])).2.1 rfl (by decide)
  · exact (tool_event_id_handling (openState false)
      (Json.obj [("type", Json.str "tool_execution_end"),
                 ("toolCallId", Json.str "t9")])).2.2 rfl (by decide) (by simp [openState])

/-! ### Transport correlation and exit behaviour -/

/-- Claim C5: a parsed line of response shape (`type=response` with a
string id) whose id matches no pending request is dropped — the
pending set is untouched, no future is fulfilled, and nothing is
dispatched to listeners; every other successfully parsed line is
dispatched unmodified to all registered listeners in registration
order. -/
theorem response_correlation (st : RpcState) (msg : Json) :
    (∀ id, responseId msg = some id → id ∉ st.pending →
      handleLine st msg = (st, RpcEffect.noEffect)) ∧
    (responseId msg = none →
      handleLine st msg = (st, RpcEffect.dispatch st.handlers msg)) := by
  constructor
  · intro id hid hmem
    simp [handleLine, hid, hmem]
  · intro hid
    simp [handleLine, hid]

/-- Witness for C5: with one pending id `"live"` and two listeners, a
response for the retired id `"gone"` is dropped, and a
`message_update` event line is dispatched to both listeners in
order. -/
theorem response_correlation_witness :
    handleLine ⟨["live"], [0, 1], false⟩
        (Json.obj [("type", Json.str "response"), ("id", Json.str "gone")]) =
      (⟨["live"], [0, 1], false⟩, RpcEffect.noEffect) ∧
    handleLine ⟨["live"], [0, 1], false⟩
        (Json.obj [("type", Json.str "message_update")]) =
      (⟨["live"], [0, 1], false⟩,
        RpcEffect.dispatch [0, 1] (Json.obj [("type", Json.str "message_update")])) := by
  constructor
  · exact (response_correlation ⟨["live"], [0, 1], false⟩
      (Json.obj [("type", Json.str "response"), ("id", Json.str "gone")])).1
      "gone" rfl (by decide)
  · exact (response_correlation ⟨["live"], [0, 1], false⟩
      (Json.obj [("type", Json.str "message_update")])).2 rfl

/-- Transport with one pending request and one listener, used as the
concrete counterexample state for claim C6. -/
def c6StartState : RpcState :=
  { pending := ["r1"], handlers := [0], exited := false }

/-- A non-response event line. -/
def c6Event : Json :=
  Json.obj [("type", Json.str "message_update")]

/-- Counterexample to claim C6 as stated: the line handler has no
exited guard, so a (buffered) line processed after the subprocess
exit is still dispatched to listeners — the claim's "no further
events are dispatched to listeners after exit" fails. -/
theorem dispatch_after_exit :
    (rpcRun c6StartState [RpcIn.exit, RpcIn.line c6Event]).2 =
      [RpcEffect.rejectAll ["r1"] RpcError.transportClosed,
       RpcEffect.dispatch [0] c6Event] := by
  rfl

/-- After a run starts from an empty pending set, it stays empty and
every occurrence's effect is the post-exit one: responses correlate
with nothing, non-response lines still dispatch. -/
theorem rpcRun_no_pending (ins : List RpcIn) (st : RpcState) (h : st.pending = []) :
    (rpcRun st ins).2 = ins.map (postExitEffect st.handlers) ∧
    (rpcRun st ins).1.pending = [] := by
  induction ins generalizing st with
  | nil => exact ⟨rfl, h⟩
  | cons i is ih =>
    cases i with
    | line m =>
      cases hr : responseId m with
      | some id =>
        have hstep : rpcStep st (RpcIn.line m) = (st, RpcEffect.noEffect) := by
          simp [rpcStep, handleLine, hr, h]
        have hrec := ih st h
        refine ⟨?_, ?_⟩
        · simp [rpcRun, hstep, hrec.1, postExitEffect, hr]
        · simp [rpcRun, hstep, hrec.2]
      | none =>
        have hstep : rpcStep st (RpcIn.line m) =
            (st, RpcEffect.dispatch st.handlers m) := by
          simp [rpcStep, handleLine, hr]
        have hrec := ih st h
        refine ⟨?_, ?_⟩
        · simp [rpcRun, hstep, hrec.1, postExitEffect, hr]
        · simp [rpcRun, hstep, hrec.2]
    | exit =>
      have hstep : rpcStep st RpcIn.exit =
          ({ st with pending := [], exited := true },
           RpcEffect.rejectAll [] RpcError.transportClosed) := by
        simp [rpcStep, handleExit, h]
      have hrec := ih { st with pending := [], exited := true } rfl
      refine ⟨?_, ?_⟩
      · simp [rpcRun, hstep, postExitEffect]
        exact hrec.1
      · simp [rpcRun, hstep, hrec.2]

/-- Claim C6 (amended): when the subprocess exits, every still-pending
request future is immediately failed with the transport-closed error
and the pending set becomes — and stays — empty, so no response is
ever correlated to a request afterwards; however, lines read after
exit are still classified by the unguarded line handler, and
non-response lines are still dispatched to listeners (response-shaped
lines find no pending request and are dropped). -/
theorem subprocess_exit_fails_pending (st : RpcState) (ins : List RpcIn) :
    (rpcRun st (RpcIn.exit :: ins)).2 =
      RpcEffect.rejectAll st.pending RpcError.transportClosed ::
        ins.map (postExitEffect st.handlers) ∧
    (rpcRun st (RpcIn.exit :: ins)).1.pending = [] := by
  have hrec := rpcRun_no_pending ins { st with pending := [], exited := true } rfl
  constructor
  · simp [rpcRun, rpcStep, handleExit]
    exact hrec.1
  · simp [rpcRun, rpcStep, handleExit, hrec.2]

/-! ### Slash-command expansion properties -/

/-- If no catalog entry's name equals the leading command name, the
input is returned unchanged. -/
theorem expandSlashCommand_no_match (text : String) (catalog : List FileSlashCommand)
    (hnone : ∀ c ∈ catalog, c.name ≠ leadingCommandName text) :
    expandSlashCommand text catalog = text := by
  unfold expandSlashCommand
  split
  · rfl
  · have hfind : catalog.find? (fun c => c.name == leadingCommandName text) = none := by
      apply List.find?_eq_none.mpr
      intro c hc
      simpa using hnone c hc
    simp [hfind]

/-- Claim C7: an input not starting with `/` is returned unchanged,
and an input whose leading command name (the text after `/` up to the
first space) matches no catalog entry is returned unchanged — in
particular `expand("/unknown world", catalog) = "/unknown world"` for
any catalog without an entry named `"unknown"`. -/
theorem expand_unknown_unchanged (text : String) (catalog : List FileSlashCommand) :
    (text.toList.head? ≠ some '/' → expandSlashCommand text catalog = text) ∧
    ((∀ c ∈ catalog, c.name ≠ leadingCommandName text) →
      expandSlashCommand text catalog = text) ∧
    ((∀ c ∈ catalog, c.name ≠ "unknown") →
      expandSlashCommand "/unknown world" catalog = "/unknown world") := by
  refine ⟨?_, expandSlashCommand_no_match text catalog, ?_⟩
  · intro h
    unfold expandSlashCommand
    rw [if_pos h]
  · intro h
    apply expandSlashCommand_no_match
    intro c hc
    have : leadingCommandName "/unknown world" = "unknown" := by decide
    rw [this]
    exact h c hc

/-- Witness for C7 with a concrete one-entry catalog: a non-slash
input and a `/unknown` input both come back verbatim. -/
theorem expand_unknown_unchanged_witness :
    expandSlashCommand "hello /deploy" [⟨"deploy", "", "body $1", "(user)"⟩] =
      "hello /deploy" ∧
    expandSlashCommand "/unknown world" [⟨"deploy", "", "body $1", "(user)"⟩] =
      "/unknown world" := by
  constructor
  · exact (expand_unknown_unchanged "hello /deploy"
      [⟨"deploy", "", "body $1", "(user)"⟩]).1 (by decide)
  · exact (expand_unknown_unchanged "hello /deploy"
      [⟨"deploy", "", "body $1", "(user)"⟩]).2.2 (by decide)

/-! ### Argument substitution -/

/-- Literal global `$@` replacement: the specification's reading of
"replace every occurrence of `$@` with the space-joined argument
list", with the replacement text inserted verbatim. -/
def literalReplaceAt (repl : List Char) : List Char → List Char
  | '$' :: '@' :: rest => repl ++ literalReplaceAt repl rest
  | c :: rest => c :: literalReplaceAt repl rest
  | [] => []

/-- A replacement string without `$` is inserted verbatim by
JavaScript's replacement-pattern expansion. -/
theorem jsDollarPatterns_no_dollar (bef aft : List Char) (repl : List Char) :
    '$' ∉ repl → jsDollarPatterns bef aft repl = repl := by
  induction repl using jsDollarPatterns.induct bef aft with
  | case1 => intro h; rfl
  | case2 rest ih => intro h; simp at h
  | case3 rest h1 ih => intro h; simp at h
  | case4 rest h1 h2 ih => intro h; simp at h
  | case5 rest h1 h2 h3 ih => intro h; simp at h
  | case6 c rest h1 h2 h3 h4 ih => intro h; simp at h
  | case7 c rest hcon ih =>
    intro h
    have hrest : '$' ∉ rest := fun hh => h (List.mem_cons_of_mem c hh)
    have hc : c ≠ '$' := fun hh => h (by rw [hh]; exact List.mem_cons_self '$' rest)
    cases rest with
    | nil => simp [jsDollarPatterns]
    | cons c2 rest2 =>
      rw [show jsDollarPatterns bef aft (c :: c2 :: rest2) =
            c :: jsDollarPatterns bef aft (c2 :: rest2) from by
          simp [jsDollarPatterns, hc]]
      rw [ih hrest]

/-- With a `$`-free replacement string, the source's `$@` pass agrees
with literal replacement, whatever the already-scanned prefix is. -/
theorem replaceDollarAtGo_literal (repl : List Char) (h : '$' ∉ repl)
    (pre l : List Char) :
    replaceDollarAtGo repl pre l = literalReplaceAt repl l := by
  induction pre, l using replaceDollarAtGo.induct repl with
  | case1 pre rest ih =>
    rw [show replaceDollarAtGo repl pre ('$' :: '@' :: rest) =
          jsDollarPatterns pre rest repl ++
            replaceDollarAtGo repl (pre ++ ['$', '@']) rest from by
        simp [replaceDollarAtGo]]
    rw [jsDollarPatterns_no_dollar pre rest repl h, ih,
      show literalReplaceAt repl ('$' :: '@' :: rest) =
        repl ++ literalReplaceAt repl rest from by simp [literalReplaceAt]]
  | case2 pre c rest hcon ih =>
    cases rest with
    | nil => simp [replaceDollarAtGo, literalReplaceAt]
    | cons c2 rest2 =>
      rcases Decidable.em (c = '$') with h1 | h1
      · have h2 : c2 ≠ '@' := fun hh => hcon rest2 h1 (by rw [hh])
        subst h1
        rw [show replaceDollarAtGo repl pre ('$' :: c2 :: rest2) =
              '$' :: replaceDollarAtGo repl (pre ++ ['$']) (c2 :: rest2) from by
            simp [replaceDollarAtGo, h2]]
        rw [show literalReplaceAt repl ('$' :: c2 :: rest2) =
              '$' :: literalReplaceAt repl (c2 :: rest2) from by
            simp [literalReplaceAt, h2]]
        rw [ih]
      · rw [show replaceDollarAtGo repl pre (c :: c2 :: rest2) =
              c :: replaceDollarAtGo repl (pre ++ [c]) (c2 :: rest2) from by
            simp [replaceDollarAtGo, h1]]
        rw [show literalReplaceAt repl (c :: c2 :: rest2) =
              c :: literalReplaceAt repl (c2 :: rest2) from by
            simp [literalReplaceAt, h1]]
        rw [ih]
  | case3 pre => rfl

/-- Counterexample to claim C8 as stated: with arguments `["$$"]` the
space-joined argument list is `"$$"`, but JavaScript's
replacement-pattern expansion turns it into a single `"$"`, so `$@` is
not replaced by the joined list verbatim. -/
theorem substituteArgs_dollar_pattern :
    substituteArgs "$@" ["$$"] = "$" ∧ ("$" : String) ≠ "$$" :=
  ⟨by decide, by decide⟩

/-- Claim C8 (amended): when the space-joined argument list contains
no `$` character, substitution replaces every occurrence of `$@` in
the body with the joined list verbatim and then every `$N` (maximal
digit run, 1-based) with the Nth argument — the empty string when
absent; when the joined list contains `$`, JavaScript
replacement-pattern expansion applies to it.  In particular the body
`"x=$1 y=$2 all=$@"` with arguments `["one","two"]` expands to
`"x=one y=two all=one two"`, and a missing positional reference
substitutes the empty string. -/
theorem substituteArgs_correct :
    (∀ content args, '$' ∉ (String.intercalate " " args).toList →
      substituteArgs content args =
        String.mk (substDollarNum args none
          (literalReplaceAt (String.intercalate " " args).toList content.toList))) ∧
    substituteArgs "x=$1 y=$2 all=$@" ["one", "two"] = "x=one y=two all=one two" ∧
    substituteArgs "x=$1 y=$3" ["one"] = "x=one y=" := by
  refine ⟨?_, by decide, by decide⟩
  intro content args h
  unfold substituteArgs
  dsimp only
  rw [replaceDollarAtGo_literal (String.intercalate " " args).toList h [] content.toList]

/-- Witness for the amended C8: a concrete `$`-free argument list,
with the `$@` and `$1` substitutions applied to it literally. -/
theorem substituteArgs_correct_witness :
    substituteArgs "all=$@ $1" ["a", "b"] =
      String.mk (substDollarNum ["a", "b"] none
        (literalReplaceAt (String.intercalate " " ["a", "b"]).toList
          ("all=$@ $1").toList)) :=
  substituteArgs_correct.1 "all=$@ $1" ["a", "b"] (by decide)

/-! ### Image content block translation -/

/-- Claim C9: translating an image content block produces an
attachment whose `size` is the decoded byte length of the base64
payload, whose `fileName` is inferred from the declared media type,
and whose `content` is the original base64 string, and the image block
contributes nothing to the message text; in particular a payload of 3
decoded bytes with media type `image/png` yields `size = 3` and
`fileName = "attachment.png"`. -/
theorem image_block_translation :
    (∀ (data mime : String) (uri : Option String) (rest : List ContentBlock) (k : Nat),
      (promptToPiMessageGo (ContentBlock.image data mime uri :: rest) k).1 =
        (promptToPiMessageGo rest (if uri.isNone then k + 1 else k)).1 ∧
      ∃ att atts,
        (promptToPiMessageGo (ContentBlock.image data mime uri :: rest) k).2 =
          att :: atts ∧
        att.size = base64ByteLength data ∧
        att.fileName = guessFileNameFromMime mime ∧
        att.content = data ∧
        att.mimeType = mime ∧
        atts = (promptToPiMessageGo rest (if uri.isNone then k + 1 else k)).2) ∧
    base64ByteLength "QUJD" = 3 ∧
    promptToPiMessage [ContentBlock.image "QUJD" "image/png" (some "u1")] =
      ("", [{ id := "u1", type := "image", fileName := "attachment.png",
              mimeType := "image/png", size := 3, content := "QUJD" }]) := by
  refine ⟨?_, by decide, by decide⟩
  intro data mime uri rest k
  refine ⟨by simp [promptToPiMessageGo], ?_⟩
  refine ⟨{ id := match uri with | some u => u | none => freshUuid k,
            type := "image", fileName := guessFileNameFromMime mime,
            mimeType := mime, size := base64ByteLength data, content := data },
          (promptToPiMessageGo rest (if uri.isNone then k + 1 else k)).2,
          by simp [promptToPiMessageGo], rfl, rfl, rfl, rfl, rfl⟩

end PiAcp
